import Mathlib

/-
  Verification of the offline audio mixing engine of the vibecheck-testlab
  repository (the AudioMixer class, revision embedded in src/pages/Index.tsx,
  with the earlier revision in src/utils/AudioMixer.ts used for comparison
  where noted).

  Modelling conventions:
  - JavaScript numbers are modelled as exact rationals; decimal literals of the
    source (0.1, 0.5, 1.2, 0.015, ...) are read as the rationals they denote.
  - Audio buffers are per-channel lists of rational samples plus an integer
    sample rate; byte sequences are lists of naturals below 256.
  - The asynchronous control flow of the class is modelled by pure functions on
    an explicit mixer-state record.
-/

namespace AudioMixer

/-- The MusicConfig interface of the source (volume and duration fields used by
the offline mixing path; the intro, outro and break sound URLs are load-time
concerns and are not part of the mixing computation). -/
structure MusicConfig where
  enabled : Bool
  introDuration : ℚ
  introFadeDuration : ℚ
  exponentialFade : Bool
  musicVolume : ℚ
  speechVolume : ℚ
  outroEnabled : Bool
  outroFadeInDuration : ℚ
  outroDuration : ℚ
  outroFadeOutDuration : ℚ
  breakSoundEnabled : Bool
deriving DecidableEq

/-- The absolute timestamps derived for scheduling, as computed in
mixWithSpeech (totalDuration, line 245) and createMixedAudioWithOutro
(lines 344-348 and 369-375) of src/pages/Index.tsx. -/
structure MixTiming where
  fadeStartTime : ℚ
  fadeEndTime : ℚ
  speechStartTime : ℚ
  speechEndTime : ℚ
  outroFadeInStart : ℚ
  outroFadeInEnd : ℚ
  outroFullVolumeEnd : ℚ
  outroFadeOutEnd : ℚ
  totalDuration : ℚ
deriving DecidableEq

/-- Timing computation of createMixedAudioWithOutro and mixWithSpeech:
fadeStartTime = max(0, introDuration); fadeEndTime = fadeStartTime +
max(0, introFadeDuration); speechStartTime = fadeStartTime +
max(0, introFadeDuration) / 2; speechEndTime = speechStartTime +
max(0.1, speechDuration); outroFadeInStart = speechEndTime −
outroFadeInDuration, set to 0 when negative (line 375); outroFadeInEnd =
speechEndTime; outroFullVolumeEnd = speechEndTime + (outroDuration −
outroFadeOutDuration); outroFadeOutEnd = speechEndTime + outroDuration;
totalDuration = introDuration + introFadeDuration + speechDuration +
(outroDuration when outro enabled) + 0.5 of padding (line 245). -/
def calculateTiming (config : MusicConfig) (speechDuration : ℚ) : MixTiming :=
  let fadeStartTime := max 0 config.introDuration
  let fadeEndTime := fadeStartTime + max 0 config.introFadeDuration
  let speechStartTime := fadeStartTime + max 0 config.introFadeDuration / 2
  let speechEndTime := speechStartTime + max (1/10) speechDuration
  let outroFadeInStartRaw := speechEndTime - config.outroFadeInDuration
  let outroFadeInStart := if outroFadeInStartRaw < 0 then 0 else outroFadeInStartRaw
  { fadeStartTime := fadeStartTime
    fadeEndTime := fadeEndTime
    speechStartTime := speechStartTime
    speechEndTime := speechEndTime
    outroFadeInStart := outroFadeInStart
    outroFadeInEnd := speechEndTime
    outroFullVolumeEnd := speechEndTime + (config.outroDuration - config.outroFadeOutDuration)
    outroFadeOutEnd := speechEndTime + config.outroDuration
    totalDuration := config.introDuration + config.introFadeDuration + speechDuration +
      (if config.outroEnabled then config.outroDuration else 0) + 1/2 }

/-- One scheduled gain automation event: setValueAtTime is a step to the value
at the given time, linearRampToValueAtTime a linear ramp reaching the value at
the given time. -/
inductive RampKind where
  | setValue
  | linearRamp
deriving DecidableEq

/-- A breakpoint of a gain envelope: the automation events scheduled on one
GainNode, in source order. -/
structure GainBreakpoint where
  time : ℚ
  value : ℚ
  kind : RampKind
deriving DecidableEq

/-- Gain events scheduled on musicIntroGain (lines 353, 360-361): hold the
music volume from time 0 until fadeStartTime, then ramp linearly to 0 at
fadeEndTime. -/
def musicIntroGainEnvelope (config : MusicConfig) (t : MixTiming) : List GainBreakpoint :=
  [⟨0, config.musicVolume, .setValue⟩,
   ⟨t.fadeStartTime, config.musicVolume, .setValue⟩,
   ⟨t.fadeEndTime, 0, .linearRamp⟩]

/-- Gain events scheduled on speechGain (lines 354, 364-365): silent until
speechStartTime, then a linear 1-second rise to the speech volume. -/
def speechGainEnvelope (config : MusicConfig) (t : MixTiming) : List GainBreakpoint :=
  [⟨0, 0, .setValue⟩,
   ⟨t.speechStartTime, 0, .setValue⟩,
   ⟨t.speechStartTime + 1, config.speechVolume, .linearRamp⟩]

/-- Gain events scheduled on musicOutroGain (lines 356, 378-385): silent until
the clamped outroFadeInStart, linear rise to min(1, musicVolume × 1.2) by
max(outroFadeInStart, outroFadeInEnd), held until outroFullVolumeEnd, then a
linear fall to 0 at outroFadeOutEnd. -/
def musicOutroGainEnvelope (config : MusicConfig) (t : MixTiming) : List GainBreakpoint :=
  [⟨0, 0, .setValue⟩,
   ⟨max 0 t.outroFadeInStart, 0, .setValue⟩,
   ⟨max t.outroFadeInStart t.outroFadeInEnd, min 1 (config.musicVolume * (12/10)), .linearRamp⟩,
   ⟨t.outroFullVolumeEnd, min 1 (config.musicVolume * (12/10)), .setValue⟩,
   ⟨t.outroFadeOutEnd, 0, .linearRamp⟩]

/-- The clipped playback length of one break effect (line 627):
min(max(0.25, breakDuration), breakBuffer.duration). -/
def breakPlayDuration (breakDuration bufferDuration : ℚ) : ℚ :=
  min (max (1/4) breakDuration) bufferDuration

/-- Gain events scheduled on one breakGain node (lines 620, 630-633): silent at
time 0, stepped to the audible gain 0.3 at max(0, breakStartTime − 0.01), then
a linear fall to 0.0001 at breakStartTime + playDuration. -/
def breakGainEnvelope (breakStartTime playDuration : ℚ) : List GainBreakpoint :=
  [⟨0, 0, .setValue⟩,
   ⟨max 0 (breakStartTime - 1/100), 3/10, .setValue⟩,
   ⟨breakStartTime + playDuration, 1/10000, .linearRamp⟩]

/-- A decoded audio buffer: per-channel lists of float samples plus an integer
sample rate (the AudioBuffer objects the source manipulates). -/
structure AudioBuffer where
  sampleRate : ℕ
  channels : List (List ℚ)
deriving DecidableEq

/-- The numberOfChannels property of a buffer. -/
def AudioBuffer.numberOfChannels (b : AudioBuffer) : ℕ := b.channels.length

/-- The length property of a buffer: frames per channel. -/
def AudioBuffer.length (b : AudioBuffer) : ℕ := (b.channels.headD []).length

/-- The duration property of a buffer: length divided by sample rate. -/
def AudioBuffer.duration (b : AudioBuffer) : ℚ := (b.length : ℚ) / (b.sampleRate : ℚ)

/-- The getChannelData method: samples of one channel, indexed reads
defaulting to 0. -/
def AudioBuffer.getChannelData (b : AudioBuffer) (ch : ℕ) : List ℚ := b.channels.getD ch []

/-- Little-endian bytes of a 16-bit unsigned write (DataView setUint16). -/
def uint16le (n : ℕ) : List ℕ := [n % 256, n / 256 % 256]

/-- Little-endian bytes of a 32-bit unsigned write (DataView setUint32). -/
def uint32le (n : ℕ) : List ℕ :=
  [n % 256, n / 256 % 256, n / 65536 % 256, n / 16777216 % 256]

/-- Truncation toward zero, the ToIntegerOrInfinity conversion DataView
setInt16 applies to a non-integral number. -/
def jsTruncate (q : ℚ) : ℤ := if q < 0 then ⌈q⌉ else ⌊q⌋

/-- Little-endian bytes of a DataView setInt16 write: the value is truncated
toward zero and taken modulo 2^16. -/
def int16le (q : ℚ) : List ℕ :=
  let w := (jsTruncate q % 65536).toNat
  [w % 256, w / 256]

/-- The float-to-int scaling of audioBufferToBlob (line 555): negative samples
are scaled by 0x8000, non-negative ones by 0x7FFF. -/
def scaleSample (sample : ℚ) : ℚ :=
  if sample < 0 then sample * 32768 else sample * 32767

/-- One DataView write: replace bytes of the array starting at the offset. -/
def writeBytes (arr : List ℕ) (offset : ℕ) (bytes : List ℕ) : List ℕ :=
  arr.take offset ++ bytes ++ arr.drop (offset + bytes.length)

/-- A sequence of DataView writes at consecutive offsets. -/
def writeSeq (arr : List ℕ) (offset : ℕ) : List (List ℕ) → List ℕ
  | [] => arr
  | c :: cs => writeSeq (writeBytes arr offset c) (offset + c.length) cs

/-- The header writes of audioBufferToBlob (lines 536-548) in source order;
each chunk starts where the previous one ended (offsets 0, 4, 8, 12, 16, 20,
22, 24, 28, 32, 34, 36, 40). -/
def wavHeaderChunks (numberOfChannels sampleRate dataSize : ℕ) : List (List ℕ) :=
  let blockAlign := numberOfChannels * 2
  let byteRate := sampleRate * blockAlign
  let bufferSize := 44 + dataSize
  [[82, 73, 70, 70],
   uint32le (bufferSize - 8),
   [87, 65, 86, 69],
   [102, 109, 116, 32],
   uint32le 16,
   uint16le 1,
   uint16le numberOfChannels,
   uint32le sampleRate,
   uint32le byteRate,
   uint16le blockAlign,
   uint16le 16,
   [100, 97, 116, 97],
   uint32le dataSize]

/-- The data writes of audioBufferToBlob (lines 551-559): for each frame, for
each channel, the scaled sample written as a little-endian 16-bit integer. -/
def sampleChunks (b : AudioBuffer) : List (List ℕ) :=
  (List.range b.length).flatMap fun i =>
    (List.range b.numberOfChannels).map fun ch =>
      int16le (scaleSample ((b.getChannelData ch).getD i 0))

/-- The audioBufferToBlob method of src/pages/Index.tsx (lines 514-562): a
44 + dataSize byte array is allocated, the WAV header fields are written at
offsets 0 through 40, then the interleaved samples from offset 44 on. -/
def audioBufferToBlob (b : AudioBuffer) : List ℕ :=
  let dataSize := b.length * (b.numberOfChannels * 2)
  writeSeq
    (writeSeq (List.replicate (44 + dataSize) 0) 0
      (wavHeaderChunks b.numberOfChannels b.sampleRate dataSize))
    44 (sampleChunks b)

/-- Specification-side rendering of the 44-byte WAV header, stated with the
field meanings of the specification: RIFF tag, riff chunk size 36 + dataSize,
WAVE and fmt tags, fmt chunk size 16, format 1 (PCM), channel count, sample
rate, byteRate = sampleRate × blockAlign, blockAlign = channelCount × 2,
bitsPerSample 16, data tag, data chunk size. -/
def wavHeaderSpec (b : AudioBuffer) : List ℕ :=
  let blockAlign := b.numberOfChannels * 2
  let dataSize := b.length * blockAlign
  [82, 73, 70, 70] ++ uint32le (36 + dataSize) ++
  [87, 65, 86, 69] ++ [102, 109, 116, 32] ++ uint32le 16 ++ uint16le 1 ++
  uint16le b.numberOfChannels ++ uint32le b.sampleRate ++
  uint32le (b.sampleRate * blockAlign) ++ uint16le blockAlign ++ uint16le 16 ++
  [100, 97, 116, 97] ++ uint32le dataSize

/-- Specification-side rendering of the sample data: interleaved 16-bit signed
little-endian samples, negative samples scaled by 32768 and non-negative ones
by 32767 before truncation. -/
def interleavedSamples (b : AudioBuffer) : List ℕ :=
  (List.range b.length).flatMap fun i =>
    (List.range b.numberOfChannels).flatMap fun ch =>
      int16le (scaleSample ((b.getChannelData ch).getD i 0))

/-- The instance state of the AudioMixer class that the mix entry points
consult: the isMixing flag, the decoded intro buffer, and the decoded music
buffer of the legacy single-file path. -/
structure MixerState where
  isMixing : Bool
  introBuffer : Option AudioBuffer
  musicBuffer : Option AudioBuffer
deriving DecidableEq

/-- The base64ToBlob method: the produced blob carries exactly the bytes the
base64 payload decodes to; the payload is represented here by that byte
sequence. -/
def base64ToBlob (speechAudioData : List ℕ) : List ℕ := speechAudioData

/-- The createSpeechOnlyUrl method (lines 493-502): the returned mixedBlob is
the speech blob itself, unchanged. -/
def createSpeechOnlyUrl (speechAudioData : List ℕ) : List ℕ :=
  base64ToBlob speechAudioData

/-- Outcome of a mixWithSpeech call: either the bypass path returning blob
bytes directly, or entry into the offline rendering path (whose output is
produced by the OfflineAudioContext render and the WAV encoder). -/
inductive MixResult where
  | speechOnly (bytes : List ℕ)
  | rendered
deriving DecidableEq

/-- Control flow of the mixWithSpeech method (lines 226-253): when the config
is disabled, or neither an intro buffer nor a music buffer is loaded, the
speech-only bypass returns the speech bytes; otherwise the offline rendering
path runs. The isMixing flag is neither read nor written on this path. -/
def mixWithSpeech (st : MixerState) (config : MusicConfig) (speechAudioData : List ℕ) :
    MixResult :=
  if config.enabled = false ∨ (st.introBuffer = none ∧ st.musicBuffer = none) then
    .speechOnly (createSpeechOnlyUrl speechAudioData)
  else
    .rendered

/-- State effect of the playMixedSequence method (lines 420-451): with mixing
disabled or no music buffer it plays speech only and leaves the state alone;
otherwise it sets isMixing to true (line 430) without checking it, and starts
playback. The boolean result records whether the mixed path was taken. -/
def playMixedSequence (st : MixerState) (config : MusicConfig) : MixerState × Bool :=
  if config.enabled = false ∨ st.musicBuffer = none then (st, false)
  else ({ st with isMixing := true }, true)

/-- State effect of the stop method (lines 564-568): clears isMixing. -/
def stop (st : MixerState) : MixerState :=
  { st with isMixing := false }

/-- Specification-side definition (from the words of the specification, for
the refinement comparison of the bypass): decode the speech asset with the
external decode service and re-encode it directly with the WAV encoder. -/
def bypassSpecOutput (decode : List ℕ → AudioBuffer) (speechAudioData : List ℕ) : List ℕ :=
  audioBufferToBlob (decode speechAudioData)

/-- A detected quiet interval: start time and duration in seconds. -/
structure SilenceSegment where
  start : ℚ
  duration : ℚ
deriving DecidableEq

instance : Inhabited SilenceSegment := ⟨⟨0, 0⟩⟩

/-- The mono mixdown of detectSilenceSegments (lines 748-754): the average of
the channels at one sample index. -/
def monoAt (b : AudioBuffer) (i : ℕ) : ℚ :=
  (b.channels.map fun data => data.getD i 0 / (b.numberOfChannels : ℚ)).sum

/-- Mean absolute amplitude of one analysis window (lines 766-775): the window
covers sample indices i through min(length, i + win), and the sum is divided
by the count, with 0 guarded to 1. -/
def windowAvg (b : AudioBuffer) (i win : ℕ) : ℚ :=
  let e := min b.length (i + win)
  let count := e - i
  (((List.range count).map fun k => |monoAt b (i + k)|).sum) /
    (if count = 0 then 1 else (count : ℚ))

/-- Mutable state of the silence scan loop. -/
structure SilenceScanState where
  inSilence : Bool
  startSample : ℕ
  segments : List SilenceSegment
deriving DecidableEq

/-- One iteration of the silence scan (lines 776-788): a window is silent when
its mean amplitude is below the threshold 0.015; a silent window opens a
candidate segment, a loud window closes it, keeping it only when its duration
reaches the 0.4 second minimum. -/
def silenceScanStep (b : AudioBuffer) (win : ℕ) (st : SilenceScanState) (i : ℕ) :
    SilenceScanState :=
  let silent := windowAvg b i win < 3/200
  if silent then
    if st.inSilence then st
    else { st with inSilence := true, startSample := i }
  else
    if st.inSilence then
      let dur : ℚ := ((i : ℚ) - (st.startSample : ℚ)) / (b.sampleRate : ℚ)
      if 2/5 ≤ dur then
        { inSilence := false, startSample := st.startSample,
          segments := st.segments ++ [⟨(st.startSample : ℚ) / (b.sampleRate : ℚ), dur⟩] }
      else { st with inSilence := false }
    else st

/-- The full scan: window start indices 0, step, 2·step, ... below the buffer
length. -/
def detectSilenceScan (b : AudioBuffer) (step win : ℕ) : SilenceScanState :=
  ((List.range ((b.length + step - 1) / step)).map (· * step)).foldl
    (silenceScanStep b win) ⟨false, 0, []⟩

/-- detectSilenceSegments before merging (lines 742-796): the scan with a step
of floor(sampleRate · 0.01) samples and a window of floor(sampleRate · 0.05)
samples, both guarded to at least 1 (for the integer sample rates in use these
floors equal sampleRate / 100 and sampleRate / 20 in integer division),
followed by the close of a trailing open segment. -/
def detectSilenceRaw (b : AudioBuffer) : List SilenceSegment :=
  let step := max 1 (b.sampleRate / 100)
  let win := max 1 (b.sampleRate / 20)
  let st := detectSilenceScan b step win
  if st.inSilence then
    let dur : ℚ := ((b.length : ℚ) - (st.startSample : ℚ)) / (b.sampleRate : ℚ)
    if 2/5 ≤ dur then
      st.segments ++ [⟨(st.startSample : ℚ) / (b.sampleRate : ℚ), dur⟩]
    else st.segments
  else st.segments

/-- The comparator sort on segment start times (line 799). -/
def sortSegmentsByStart (segments : List SilenceSegment) : List SilenceSegment :=
  segments.mergeSort fun a b => decide (a.start ≤ b.start)

/-- The merge pass (lines 800-809): a segment starting within 0.15 seconds of
the end of the previous one extends it to the later of the two ends. -/
def mergeCloseSegments (segments : List SilenceSegment) : List SilenceSegment :=
  segments.foldl
    (fun merged seg =>
      match merged.getLast? with
      | some last =>
          if seg.start ≤ last.start + last.duration + 3/20 then
            merged.dropLast ++
              [⟨last.start,
                max (last.start + last.duration) (seg.start + seg.duration) - last.start⟩]
          else merged ++ [seg]
      | none => [seg])
    []

/-- The detectSilenceSegments method of src/pages/Index.tsx (lines 742-813). -/
def detectSilenceSegments (b : AudioBuffer) : List SilenceSegment :=
  mergeCloseSegments (sortSegmentsByStart (detectSilenceRaw b))

/-- Unit of a break tag duration. -/
inductive TimeUnit where
  | ms
  | s
deriving DecidableEq

/-- Abstract token of the markup text: one plain word, a well-formed break tag
with an explicit duration, a bare break tag without one, or any other tag
(stripped to whitespace by the word counts). -/
inductive TextItem where
  | word
  | timedBreak (value : ℚ) (unit : TimeUnit)
  | bareBreak
  | otherTag
deriving DecidableEq

/-- The normalization of line 648: a bare break tag is rewritten to a timed
break of the 4.5 second default (the negative lookahead of that replace only
guards against a following literal time attribute text and is immaterial for
the token model). -/
def normalizeBreakTags (text : List TextItem) : List TextItem :=
  text.map fun t =>
    match t with
    | .bareBreak => .timedBreak (9/2) .s
    | x => x

/-- Duration in seconds of one matched break tag (lines 656-658 and 721-723):
millisecond values are divided by 1000. -/
def breakSeconds (value : ℚ) (unit : TimeUnit) : ℚ :=
  match unit with
  | .ms => value / 1000
  | .s => value

/-- The matches of the break pattern of src/pages/Index.tsx line 649. That
pattern ends in the empty negative lookahead (?!), an assertion that never
succeeds in ECMAScript regular expressions, so the pattern has no match on any
input text: matchAll always yields the empty list. -/
def breakMatches (text : List TextItem) : List (ℚ × TimeUnit) := []

/-- The matches of the break pattern as written in the revision of
src/utils/AudioMixer.ts line 964, which is the same pattern without the
trailing empty lookahead: every well-formed timed break tag matches, in text
order. -/
def breakMatchesNoLookahead (text : List TextItem) : List (ℚ × TimeUnit) :=
  text.filterMap fun t =>
    match t with
    | .timedBreak v u => some (v, u)
    | _ => none

/-- Word count of the whole text with tags stripped (lines 701-702). -/
def countWords (text : List TextItem) : ℕ :=
  (text.filter fun t => t = TextItem.word).length

/-- Helper for the per-break word counts: words seen since the last timed
break tag are emitted at each timed break tag. -/
def wordsBeforeEachBreakAux : List TextItem → ℕ → List ℕ
  | [], _ => []
  | .timedBreak _ _ :: rest, acc => acc :: wordsBeforeEachBreakAux rest 0
  | .word :: rest, acc => wordsBeforeEachBreakAux rest (acc + 1)
  | _ :: rest, acc => wordsBeforeEachBreakAux rest acc

/-- For each matched break tag, the number of words between the end of the
previous match and the tag, tags stripped (lines 725-731). -/
def wordsBeforeEachBreak (text : List TextItem) : List ℕ :=
  wordsBeforeEachBreakAux text 0

/-- A parsed break marker: position in seconds from speech start, and
duration in seconds. -/
structure BreakTiming where
  position : ℚ
  duration : ℚ
deriving DecidableEq

/-- The candidate filter of the alignment loop (line 673): a silence segment
is long enough for an expected break duration when its duration is at least
max(0.3, expected · 0.7). -/
def longEnough (seg : SilenceSegment) (expected : ℚ) : Prop :=
  max (3/10) (expected * (7/10)) ≤ seg.duration

instance (seg : SilenceSegment) (expected : ℚ) : Decidable (longEnough seg expected) :=
  inferInstanceAs (Decidable (_ ≤ _))

/-- One iteration of the candidate scan (lines 669-680): an index in the used
set is skipped, a segment that is not long enough is skipped, and otherwise
the candidate replaces the best one so far exactly when its score — the
absolute difference between segment duration and expected duration — is
strictly smaller, so the first candidate scanned wins ties. -/
def considerCandidate (expected : ℚ) (used : List ℕ) (best : Option (ℕ × ℚ)) (i : ℕ)
    (seg : SilenceSegment) : Option (ℕ × ℚ) :=
  if i ∈ used then best
  else if longEnough seg expected then
    match best with
    | none => some (i, |seg.duration - expected|)
    | some (bi, bs) =>
        if |seg.duration - expected| < bs then some (i, |seg.duration - expected|)
        else some (bi, bs)
  else best

/-- The inner candidate scan of the alignment loop (lines 667-680), iterating
considerCandidate over the segments with ascending indices. -/
def findBestAux (expected : ℚ) (used : List ℕ) :
    List SilenceSegment → ℕ → Option (ℕ × ℚ) → Option (ℕ × ℚ)
  | [], _, best => best
  | seg :: rest, i, best =>
      findBestAux expected used rest (i + 1) (considerCandidate expected used best i seg)

/-- The best unused candidate segment for one expected break duration, with
its score, if any qualifies. -/
def findBest (silenceSegments : List SilenceSegment) (used : List ℕ) (expected : ℚ) :
    Option (ℕ × ℚ) :=
  findBestAux expected used silenceSegments 0 none

/-- The greedy matching loop of lines 666-686: for each expected break in
order, the best unused candidate is consumed, pushing a timing whose position
is the start of the matched segment and whose duration is the expected break
duration. -/
def alignLoop (silenceSegments : List SilenceSegment) :
    List ℚ → List BreakTiming → List ℕ → List BreakTiming × List ℕ
  | [], timings, used => (timings, used)
  | expected :: rest, timings, used =>
    match findBest silenceSegments used expected with
    | some (bestIndex, _) =>
        alignLoop silenceSegments rest
          (timings ++ [⟨(silenceSegments.getD bestIndex default).start, expected⟩])
          (used ++ [bestIndex])
    | none => alignLoop silenceSegments rest timings used

/-- The alignment results for a list of expected break durations. -/
def alignBreakTimings (silenceSegments : List SilenceSegment) (expectedBreaks : List ℚ) :
    List BreakTiming × List ℕ :=
  alignLoop silenceSegments expectedBreaks [] []

/-- The comparator sort on marker positions (line 689). -/
def sortByPosition (timings : List BreakTiming) : List BreakTiming :=
  timings.mergeSort fun a b => decide (a.position ≤ b.position)

/-- The estimate loop of lines 718-737: for each matched break, the position
is the accumulated time plus the speaking time of the words before the tag,
and the accumulated time then also advances past the break duration. -/
def estimateLoop (wordsPerSecond : ℚ) : List (ℚ × ℕ) → ℚ → List BreakTiming
  | [], _ => []
  | (breakDuration, wordsBefore) :: rest, cumulativeTime =>
    let timeBeforeBreak := (wordsBefore : ℚ) / wordsPerSecond
    let position := cumulativeTime + timeBeforeBreak
    ⟨position, breakDuration⟩ :: estimateLoop wordsPerSecond rest (position + breakDuration)

/-- The word-rate estimate of lines 700-739: the speaking rate defaults to 2.5
words per second, and is replaced by totalWords divided by
max(0.1, speechDuration − totalBreakTime) when a speech buffer is present and
both quantities are positive. -/
def estimateTimings (expectedBreaks : List ℚ) (wordsBefore : List ℕ) (totalWords : ℕ)
    (speechBufferDuration : Option ℚ) : List BreakTiming :=
  let totalBreakTime := expectedBreaks.sum
  let wordsPerSecond : ℚ :=
    match speechBufferDuration with
    | some speechDuration =>
        let actualSpeechDuration := max (1/10) (speechDuration - totalBreakTime)
        if 0 < actualSpeechDuration ∧ 0 < totalWords then
          (totalWords : ℚ) / actualSpeechDuration
        else 5/2
    | none => 5/2
  estimateLoop wordsPerSecond (expectedBreaks.zip wordsBefore) 0

/-- The alignment-or-estimate decision of lines 662-698: with a nonempty
segment list and nonempty expected list, the greedy matching runs; only a
complete match (one timing per expected break) is returned, sorted by
position; a partial or empty match discards all alignment results and falls
through to the word-rate estimate. -/
def alignOrEstimate (silenceSegments : List SilenceSegment) (expectedBreaks : List ℚ)
    (wordsBefore : List ℕ) (totalWords : ℕ) (speechBufferDuration : ℚ) : List BreakTiming :=
  if silenceSegments ≠ [] ∧ expectedBreaks ≠ [] then
    let timings := (alignBreakTimings silenceSegments expectedBreaks).1
    if timings.length = expectedBreaks.length then sortByPosition timings
    else estimateTimings expectedBreaks wordsBefore totalWords (some speechBufferDuration)
  else estimateTimings expectedBreaks wordsBefore totalWords (some speechBufferDuration)

/-- The body of parseBreakTimings given the extracted expected breaks and the
word counts: silence alignment is only attempted when a speech buffer is
present. -/
def parseBreakTimingsCore (expectedBreaks : List ℚ) (wordsBefore : List ℕ) (totalWords : ℕ)
    (speechBuffer : Option AudioBuffer) : List BreakTiming :=
  match speechBuffer with
  | some buf =>
      alignOrEstimate (detectSilenceSegments buf) expectedBreaks wordsBefore totalWords
        buf.duration
  | none => estimateTimings expectedBreaks wordsBefore totalWords none

/-- The parseBreakTimings method of the revision in src/pages/Index.tsx
(lines 646-740): the text is normalized, the break pattern (whose trailing
empty lookahead never matches) yields the expected breaks, and the core runs
on them. -/
def parseBreakTimings (text : List TextItem) (speechBuffer : Option AudioBuffer) :
    List BreakTiming :=
  let normalizedText := normalizeBreakTags text
  let expectedBreaks := (breakMatches normalizedText).map fun m => breakSeconds m.1 m.2
  parseBreakTimingsCore expectedBreaks (wordsBeforeEachBreak normalizedText)
    (countWords normalizedText) speechBuffer

/-- The parseBreakTimings method of the earlier revision in
src/utils/AudioMixer.ts (lines 958-1000): no silence alignment, a fixed rate
of 2.5 words per second, and the break pattern without the trailing
lookahead. -/
def parseBreakTimingsEstimateOnly (text : List TextItem) : List BreakTiming :=
  let normalizedText := normalizeBreakTags text
  let expectedBreaks := (breakMatchesNoLookahead normalizedText).map fun m => breakSeconds m.1 m.2
  estimateLoop (5/2) (expectedBreaks.zip (wordsBeforeEachBreak normalizedText)) 0

/-- Breakpoint times are strictly increasing along the envelope. -/
def timesStrictlyIncreasing (env : List GainBreakpoint) : Prop :=
  env.Chain' fun a b => a.time < b.time

/-- Every scheduled gain value lies in the interval from 0 to 1.5. -/
def valuesInRange (env : List GainBreakpoint) : Prop :=
  ∀ p ∈ env, 0 ≤ p.value ∧ p.value ≤ 3/2

/-- The first breakpoint of the envelope is at time 0. -/
def firstBreakpointAtZero (env : List GainBreakpoint) : Prop :=
  (env.head?.map GainBreakpoint.time) = some 0

/-- Soundness of a best-so-far candidate: it names an unused, long-enough
segment of the list and carries its score. -/
def BestSound (L : List SilenceSegment) (used : List ℕ) (e : ℚ) (acc : Option (ℕ × ℚ)) :
    Prop :=
  ∀ j bs, acc = some (j, bs) → ∃ seg, L[j]? = some seg ∧ j ∉ used ∧ longEnough seg e ∧
    bs = |seg.duration - e|

/-- Minimality of a best-so-far candidate over the first i0 indices: its score
is at most the score of every eligible segment scanned so far. -/
def BestMinUpTo (L : List SilenceSegment) (used : List ℕ) (e : ℚ) (i0 : ℕ)
    (acc : Option (ℕ × ℚ)) : Prop :=
  ∀ j bs, acc = some (j, bs) → ∀ k segk, k < i0 → L[k]? = some segk → k ∉ used →
    longEnough segk e → bs ≤ |segk.duration - e|

/-- First-wins tie break: every eligible segment at an index strictly before
the best-so-far candidate has a strictly larger score. -/
def BestFirstTie (L : List SilenceSegment) (used : List ℕ) (e : ℚ)
    (acc : Option (ℕ × ℚ)) : Prop :=
  ∀ j bs, acc = some (j, bs) → ∀ k segk, k < j → L[k]? = some segk → k ∉ used →
    longEnough segk e → bs < |segk.duration - e|

/-- Absence of a best-so-far candidate means no eligible segment was scanned
among the first i0 indices. -/
def BestNoneUpTo (L : List SilenceSegment) (used : List ℕ) (e : ℚ) (i0 : ℕ)
    (acc : Option (ℕ × ℚ)) : Prop :=
  acc = none → ∀ k segk, k < i0 → L[k]? = some segk → k ∉ used → ¬ longEnough segk e

/-- The timeline example configuration of the specification: introDuration 22,
introFadeDuration 7, outro enabled with outroFadeInDuration 10,
outroDuration 15, outroFadeOutDuration 5. -/
def exampleConfig : MusicConfig :=
  ⟨true, 22, 7, false, 1/2, 1, true, 10, 15, 5, false⟩

/-- A pathological configuration: zero intro and fades, outro enabled with an
outro fade-out longer than the outro itself. -/
def shortOutroConfig : MusicConfig :=
  ⟨true, 0, 0, false, 1/2, 1, true, 0, 1, 5, false⟩

/-- A configuration with a zero intro duration and mixing enabled. -/
def zeroIntroConfig : MusicConfig :=
  ⟨true, 0, 7, false, 1/2, 1, false, 0, 0, 0, false⟩

/-- A disabled-mixing configuration. -/
def disabledConfig : MusicConfig :=
  ⟨false, 22, 7, false, 1/2, 1, false, 0, 0, 0, false⟩

/-- A one-channel one-sample buffer, used as a loaded intro buffer. -/
def loadedBuffer : AudioBuffer := ⟨8000, [[1]]⟩

/-- A mixer state whose busy flag is set and whose intro buffer is loaded. -/
def busyState : MixerState := ⟨true, some loadedBuffer, none⟩

/-- The break-estimate example text of the specification: one word, a break
tag of two seconds, one word. -/
def helloBreakWorld : List TextItem := [.word, .timedBreak 2 .s, .word]

theorem calculateTiming_fadeStartTime (config : MusicConfig) (sd : ℚ) :
    (calculateTiming config sd).fadeStartTime = max 0 config.introDuration := rfl

theorem calculateTiming_fadeEndTime (config : MusicConfig) (sd : ℚ) :
    (calculateTiming config sd).fadeEndTime =
      max 0 config.introDuration + max 0 config.introFadeDuration := rfl

theorem calculateTiming_speechStartTime (config : MusicConfig) (sd : ℚ) :
    (calculateTiming config sd).speechStartTime =
      max 0 config.introDuration + max 0 config.introFadeDuration / 2 := rfl

theorem calculateTiming_speechEndTime (config : MusicConfig) (sd : ℚ) :
    (calculateTiming config sd).speechEndTime =
      max 0 config.introDuration + max 0 config.introFadeDuration / 2 + max (1/10) sd := rfl

theorem calculateTiming_outroFadeInStart (config : MusicConfig) (sd : ℚ) :
    (calculateTiming config sd).outroFadeInStart =
      (if (calculateTiming config sd).speechEndTime - config.outroFadeInDuration < 0 then 0
       else (calculateTiming config sd).speechEndTime - config.outroFadeInDuration) := rfl

theorem calculateTiming_outroFadeInEnd (config : MusicConfig) (sd : ℚ) :
    (calculateTiming config sd).outroFadeInEnd = (calculateTiming config sd).speechEndTime := rfl

theorem calculateTiming_outroFullVolumeEnd (config : MusicConfig) (sd : ℚ) :
    (calculateTiming config sd).outroFullVolumeEnd =
      (calculateTiming config sd).speechEndTime +
        (config.outroDuration - config.outroFadeOutDuration) := rfl

theorem calculateTiming_outroFadeOutEnd (config : MusicConfig) (sd : ℚ) :
    (calculateTiming config sd).outroFadeOutEnd =
      (calculateTiming config sd).speechEndTime + config.outroDuration := rfl

theorem calculateTiming_totalDuration (config : MusicConfig) (sd : ℚ) :
    (calculateTiming config sd).totalDuration =
      config.introDuration + config.introFadeDuration + sd +
        (if config.outroEnabled then config.outroDuration else 0) + 1/2 := rfl

/-- C1: for a mix request with introDuration 22, introFadeDuration 7,
speechDuration 10, outro enabled with outroDuration 15, outroFadeInDuration 10
and outroFadeOutDuration 5, the scheduling timeline satisfies fadeStart 22,
fadeEnd 29, speechStart 25.5, speechEnd 35.5, outroFadeInStart 25.5,
outroHoldEnd 45.5, outroFadeOutEnd 50.5 and totalDuration 54.5 seconds. -/
theorem C1_timeline_example :
    (calculateTiming exampleConfig 10).fadeStartTime = 22 ∧
    (calculateTiming exampleConfig 10).fadeEndTime = 29 ∧
    (calculateTiming exampleConfig 10).speechStartTime = 51/2 ∧
    (calculateTiming exampleConfig 10).speechEndTime = 71/2 ∧
    (calculateTiming exampleConfig 10).outroFadeInStart = 51/2 ∧
    (calculateTiming exampleConfig 10).outroFullVolumeEnd = 91/2 ∧
    (calculateTiming exampleConfig 10).outroFadeOutEnd = 101/2 ∧
    (calculateTiming exampleConfig 10).totalDuration = 109/2 := by
  norm_num [calculateTiming, exampleConfig, max_def]

/-- C2 counterexample: for the enabled configuration with introDuration 0,
introFadeDuration 0, outroFadeInDuration 0, outroDuration 1 and
outroFadeOutDuration 5, at speechDuration 0 the scheduled outro hold end
(outroFullVolumeEnd, the outroHoldEnd of the claim) is negative: it is not
clamped to 0 by the code. -/
theorem C2_counterexample :
    shortOutroConfig.enabled = true ∧
    (calculateTiming shortOutroConfig 0).outroFullVolumeEnd < 0 := by
  refine ⟨rfl, ?_⟩
  norm_num [calculateTiming, shortOutroConfig, max_def]

/-- C2 amended: all scheduling timestamps except outroFullVolumeEnd are
nonnegative for every configuration and every speech duration — fadeStart,
fadeEnd, speechStart and speechEnd through the max clamps of lines 345-348,
outroFadeInStart through the explicit clamp of line 375, and outroFadeOutEnd
as soon as the outro duration is nonnegative. The outro hold end
(outroFullVolumeEnd) carries no clamp and can be negative, as the
counterexample shows. -/
theorem C2_amended_timestamps_nonneg (config : MusicConfig) (speechDuration : ℚ)
    (h : 0 ≤ config.outroDuration) :
    0 ≤ (calculateTiming config speechDuration).fadeStartTime ∧
    0 ≤ (calculateTiming config speechDuration).fadeEndTime ∧
    0 ≤ (calculateTiming config speechDuration).speechStartTime ∧
    0 < (calculateTiming config speechDuration).speechEndTime ∧
    0 ≤ (calculateTiming config speechDuration).outroFadeInStart ∧
    0 ≤ (calculateTiming config speechDuration).outroFadeOutEnd := by
  have ha : (0 : ℚ) ≤ max 0 config.introDuration := le_max_left 0 _
  have hb : (0 : ℚ) ≤ max 0 config.introFadeDuration := le_max_left 0 _
  have hs : (1/10 : ℚ) ≤ max (1/10) speechDuration := le_max_left _ _
  have hse : 0 < (calculateTiming config speechDuration).speechEndTime := by
    rw [calculateTiming_speechEndTime]; linarith
  refine ⟨?_, ?_, ?_, hse, ?_, ?_⟩
  · rw [calculateTiming_fadeStartTime]; linarith
  · rw [calculateTiming_fadeEndTime]; linarith
  · rw [calculateTiming_speechStartTime]; linarith
  · rw [calculateTiming_outroFadeInStart]
    split
    · exact le_refl 0
    · next hcond => exact le_of_not_lt hcond
  · rw [calculateTiming_outroFadeOutEnd]; linarith

/-- Witness for the amended C2 statement at the example configuration. -/
theorem C2_amended_timestamps_nonneg_witness :
    (0 : ℚ) ≤ exampleConfig.outroDuration ∧
    (0 ≤ (calculateTiming exampleConfig 10).fadeStartTime ∧
     0 ≤ (calculateTiming exampleConfig 10).fadeEndTime ∧
     0 ≤ (calculateTiming exampleConfig 10).speechStartTime ∧
     0 < (calculateTiming exampleConfig 10).speechEndTime ∧
     0 ≤ (calculateTiming exampleConfig 10).outroFadeInStart ∧
     0 ≤ (calculateTiming exampleConfig 10).outroFadeOutEnd) :=
  ⟨by norm_num [exampleConfig],
   C2_amended_timestamps_nonneg exampleConfig 10 (by norm_num [exampleConfig])⟩

/-- C9 counterexample: with the busy flag set, mixing enabled and an intro
buffer loaded, a mix request still enters the rendering path: it is executed,
not rejected as a caller error (the mixWithSpeech control flow never consults
the isMixing flag). -/
theorem C9_counterexample :
    busyState.isMixing = true ∧
    mixWithSpeech busyState exampleConfig [0] = .rendered := by
  exact ⟨rfl, rfl⟩

/-- C9 amended: the mixer does keep a busy flag, set by playMixedSequence and
cleared by stop, but mix requests do not consult it: a mix request issued
while the flag is set behaves exactly as one issued while it is clear, and is
executed rather than failed or queued. -/
theorem C9_amended_busy_flag_unchecked (st : MixerState) (config : MusicConfig)
    (speechAudioData : List ℕ) :
    (∀ b₁ b₂ : Bool,
      mixWithSpeech { st with isMixing := b₁ } config speechAudioData =
        mixWithSpeech { st with isMixing := b₂ } config speechAudioData) ∧
    (playMixedSequence st config).1.isMixing =
      (if config.enabled = true ∧ st.musicBuffer ≠ none then true else st.isMixing) ∧
    (stop st).isMixing = false := by
  refine ⟨fun b₁ b₂ => rfl, ?_, rfl⟩
  rw [playMixedSequence]
  split
  · next hcond =>
      rw [if_neg]
      intro hc
      rcases hcond with hc1 | hc2
      · rw [hc.1] at hc1; exact Bool.true_eq_false.mp hc1
      · exact hc.2 hc2
  · next hcond =>
      push_neg at hcond
      rw [if_pos ⟨Bool.not_eq_false _ |>.mp hcond.1, hcond.2⟩]

/-- C3 amended: when mixing is disabled or no intro or music buffer is loaded,
mixWithSpeech skips the renderer and returns the speech bytes unchanged (the
identity on the byte sequence, not a decode and re-encode). -/
theorem C3_amended_bypass_identity (st : MixerState) (config : MusicConfig)
    (speechAudioData : List ℕ)
    (h : config.enabled = false ∨ (st.introBuffer = none ∧ st.musicBuffer = none)) :
    mixWithSpeech st config speechAudioData = .speechOnly speechAudioData := by
  rw [mixWithSpeech, if_pos h]; rfl

/-- Witness for the amended C3 statement with a disabled configuration. -/
theorem C3_amended_bypass_identity_witness :
    (disabledConfig.enabled = false ∨
      ((⟨false, none, none⟩ : MixerState).introBuffer = none ∧
       (⟨false, none, none⟩ : MixerState).musicBuffer = none)) ∧
    mixWithSpeech ⟨false, none, none⟩ disabledConfig [7] = .speechOnly [7] :=
  ⟨Or.inl rfl, C3_amended_bypass_identity ⟨false, none, none⟩ disabledConfig [7] (Or.inl rfl)⟩

theorem uint16le_length (n : ℕ) : (uint16le n).length = 2 := rfl

theorem uint32le_length (n : ℕ) : (uint32le n).length = 4 := rfl

theorem int16le_length (q : ℚ) : (int16le q).length = 2 := rfl

/-- A DataView write at the boundary between a prefix and the rest of the
array replaces the front of the rest. -/
theorem writeBytes_at_boundary (pre rest c : List ℕ) :
    writeBytes (pre ++ rest) pre.length c = pre ++ c ++ rest.drop c.length := by
  rw [writeBytes, List.take_left, List.drop_append]

/-- Consecutive DataView writes starting at the boundary between a prefix and
the rest of the array lay the chunks down contiguously. -/
theorem writeSeq_at_boundary (chunks : List (List ℕ)) :
    ∀ pre rest : List ℕ, chunks.flatten.length ≤ rest.length →
    writeSeq (pre ++ rest) pre.length chunks =
      pre ++ chunks.flatten ++ rest.drop chunks.flatten.length := by
  induction chunks with
  | nil =>
      intro pre rest h
      simp [writeSeq]
  | cons c cs ih =>
      intro pre rest h
      have hlen : c.length + cs.flatten.length ≤ rest.length := by
        simpa using h
      have h2 : cs.flatten.length ≤ (rest.drop c.length).length := by
        simp only [List.length_drop]
        omega
      have h3 := ih (pre ++ c) (rest.drop c.length) h2
      simp only [List.length_append] at h3
      rw [writeSeq, writeBytes_at_boundary, h3]
      simp only [List.flatten_cons, List.drop_drop, List.append_assoc, List.length_append]

/-- The header chunks flattened, with the riff chunk size rewritten from
44 + dataSize − 8 to 36 + dataSize. -/
theorem wavHeaderChunks_flatten (nc sr ds : ℕ) :
    (wavHeaderChunks nc sr ds).flatten =
      [82, 73, 70, 70] ++ uint32le (36 + ds) ++ [87, 65, 86, 69] ++ [102, 109, 116, 32] ++
      uint32le 16 ++ uint16le 1 ++ uint16le nc ++ uint32le sr ++ uint32le (sr * (nc * 2)) ++
      uint16le (nc * 2) ++ uint16le 16 ++ [100, 97, 116, 97] ++ uint32le ds := by
  have h : 44 + ds - 8 = 36 + ds := by omega
  simp [wavHeaderChunks, h]

theorem wavHeaderSpec_eq_flatten (b : AudioBuffer) :
    wavHeaderSpec b =
      (wavHeaderChunks b.numberOfChannels b.sampleRate
        (b.length * (b.numberOfChannels * 2))).flatten := by
  rw [wavHeaderChunks_flatten, wavHeaderSpec]

theorem wavHeaderSpec_length (b : AudioBuffer) : (wavHeaderSpec b).length = 44 := by
  simp [wavHeaderSpec, uint16le_length, uint32le_length]

/-- Flattening a flatMap of chunk lists flattens each group. -/
theorem flatten_flatMap {α β : Type} (l : List α) (f : α → List (List β)) :
    (l.flatMap f).flatten = l.flatMap fun a => (f a).flatten := by
  induction l with
  | nil => rfl
  | cons a rest ih => simp [List.flatMap_cons, ih]

theorem sampleChunks_flatten (b : AudioBuffer) :
    (sampleChunks b).flatten = interleavedSamples b := by
  rw [sampleChunks, interleavedSamples, flatten_flatMap]
  simp only [List.flatMap_def]

/-- Length of a flatMap over an initial segment with constant chunk length. -/
theorem flatMap_range_const_length (k : ℕ) (f : ℕ → List ℕ) (hf : ∀ i, (f i).length = k) :
    ∀ n : ℕ, ((List.range n).flatMap f).length = n * k := by
  intro n
  induction n with
  | zero => simp
  | succ m ih =>
      rw [List.range_succ, List.flatMap_append, List.length_append, ih]
      simp [hf, Nat.succ_mul]

theorem interleavedSamples_length (b : AudioBuffer) :
    (interleavedSamples b).length = b.length * (b.numberOfChannels * 2) := by
  rw [interleavedSamples]
  refine flatMap_range_const_length (b.numberOfChannels * 2) _ ?_ b.length
  intro i
  exact flatMap_range_const_length 2 _ (fun ch => int16le_length _) b.numberOfChannels

/-- Two write passes over a fresh 44 + dataSize byte array, the first laying
down 44 header bytes from offset 0 and the second the data bytes from offset
44, concatenate the two flattened chunk lists. -/
theorem writeSeq_header_samples (H S : List (List ℕ)) (ds : ℕ)
    (hH : H.flatten.length = 44) (hS : S.flatten.length = ds) :
    writeSeq (writeSeq (List.replicate (44 + ds) 0) 0 H) 44 S =
      H.flatten ++ S.flatten := by
  have h1 := writeSeq_at_boundary H [] (List.replicate (44 + ds) 0) (by simp [hH])
  simp only [List.nil_append, List.length_nil] at h1
  rw [h1, hH, List.drop_replicate]
  have h44 : 44 + ds - 44 = ds := by omega
  rw [h44]
  have h2 := writeSeq_at_boundary S H.flatten (List.replicate ds 0) (by simp [hS])
  rw [hH] at h2
  rw [h2, hS, List.drop_replicate]
  simp

/-- The imperative write sequence of audioBufferToBlob equals the
concatenation of the specification header and the interleaved samples. -/
theorem audioBufferToBlob_eq (b : AudioBuffer) :
    audioBufferToBlob b = wavHeaderSpec b ++ interleavedSamples b := by
  have hh : (wavHeaderChunks b.numberOfChannels b.sampleRate
      (b.length * (b.numberOfChannels * 2))).flatten.length = 44 := by
    rw [← wavHeaderSpec_eq_flatten]; exact wavHeaderSpec_length b
  have hs : (sampleChunks b).flatten.length = b.length * (b.numberOfChannels * 2) := by
    rw [sampleChunks_flatten]; exact interleavedSamples_length b
  have := writeSeq_header_samples
    (wavHeaderChunks b.numberOfChannels b.sampleRate (b.length * (b.numberOfChannels * 2)))
    (sampleChunks b) (b.length * (b.numberOfChannels * 2)) hh hs
  rw [audioBufferToBlob, this, wavHeaderSpec_eq_flatten, sampleChunks_flatten]

/-- C8: the encoder emits the 44-byte little-endian RIFF/WAVE/fmt/data header
with format 1, the channel count, the sample rate, byteRate equal to
sampleRate times blockAlign, blockAlign equal to channelCount times 2 and 16
bits per sample, followed by the interleaved 16-bit samples, negative samples
scaled by 32768 and non-negative ones by 32767 before truncation; in this
pure embedding, encoding the same buffer twice is trivially byte-identical. -/
theorem C8_wav_encoder (b : AudioBuffer) :
    (audioBufferToBlob b).take 44 = wavHeaderSpec b ∧
    (audioBufferToBlob b).drop 44 = interleavedSamples b ∧
    (audioBufferToBlob b).length = 44 + b.length * (b.numberOfChannels * 2) ∧
    audioBufferToBlob b = audioBufferToBlob b := by
  have he := audioBufferToBlob_eq b
  have hl := wavHeaderSpec_length b
  refine ⟨?_, ?_, ?_, rfl⟩
  · rw [he, ← hl, List.take_left]
  · rw [he, ← hl, List.drop_left]
  · rw [he, List.length_append, hl, interleavedSamples_length]

/-- C3 counterexample: with mixing disabled the bypass returns the speech
bytes unchanged, and those bytes differ from the output of decoding the
speech and re-encoding it with the WAV encoder, whatever the decode result
is here instantiated at a concrete one-sample decode: the re-encoded output
always carries the 44-byte header, so it cannot equal the 1-byte input. -/
theorem C3_counterexample :
    mixWithSpeech ⟨false, none, none⟩ disabledConfig [7] =
      .speechOnly (createSpeechOnlyUrl [7]) ∧
    createSpeechOnlyUrl [7] ≠ bypassSpecOutput (fun _ => ⟨8000, [[0]]⟩) [7] := by
  refine ⟨rfl, ?_⟩
  intro hcontra
  have hlen := congrArg List.length hcontra
  rw [bypassSpecOutput, audioBufferToBlob_eq, List.length_append, wavHeaderSpec_length] at hlen
  simp [createSpeechOnlyUrl, base64ToBlob] at hlen
  omega

/-- C6 counterexample: for the enabled configuration with introDuration 0 the
intro music envelope has its first two breakpoints both at time 0 (value hold
at 0 and fade start at max(0, 0)), so its breakpoint times are not strictly
increasing. -/
theorem C6_counterexample :
    zeroIntroConfig.enabled = true ∧
    ¬ timesStrictlyIncreasing
        (musicIntroGainEnvelope zeroIntroConfig (calculateTiming zeroIntroConfig 10)) := by
  refine ⟨rfl, ?_⟩
  intro hchain
  rw [timesStrictlyIncreasing, musicIntroGainEnvelope] at hchain
  have h := (List.chain'_cons.mp hchain).1
  rw [calculateTiming_fadeStartTime] at h
  norm_num [zeroIntroConfig] at h

/-- C6 amended: for every enabled configuration with positive intro and fade
durations, volumes within the unit interval, a positive outro fade-in no
longer than the speech end, a positive outro fade-out shorter than the outro,
and break effects scheduled after time 0.01 with nonnegative play duration,
every envelope the scheduler produces (intro music, speech, outro music and
each break effect) has strictly increasing breakpoint times, values within
0 to 1.5, and its first breakpoint at time 0. Without the positivity
hypotheses the value and first-breakpoint parts still hold but the strict
monotonicity fails, as the counterexample shows. -/
theorem C6_amended_envelope_validity (config : MusicConfig)
    (speechDuration breakStartTime playDuration : ℚ)
    (hintro : 0 < config.introDuration)
    (hfade : 0 < config.introFadeDuration)
    (hmv0 : 0 ≤ config.musicVolume) (hmv1 : config.musicVolume ≤ 1)
    (hsv0 : 0 ≤ config.speechVolume) (hsv1 : config.speechVolume ≤ 1)
    (hofi0 : 0 < config.outroFadeInDuration)
    (hofi1 : config.outroFadeInDuration < (calculateTiming config speechDuration).speechEndTime)
    (hofo0 : 0 < config.outroFadeOutDuration)
    (hofo1 : config.outroFadeOutDuration < config.outroDuration)
    (hbs : 1/100 < breakStartTime) (hpd : 0 ≤ playDuration) :
    ∀ env ∈ [musicIntroGainEnvelope config (calculateTiming config speechDuration),
             speechGainEnvelope config (calculateTiming config speechDuration),
             musicOutroGainEnvelope config (calculateTiming config speechDuration),
             breakGainEnvelope breakStartTime playDuration],
      timesStrictlyIncreasing env ∧ valuesInRange env ∧ firstBreakpointAtZero env := by
  have hfs : 0 < (calculateTiming config speechDuration).fadeStartTime := by
    rw [calculateTiming_fadeStartTime]; exact lt_max_of_lt_right hintro
  have hmaxfd : 0 < max 0 config.introFadeDuration := lt_max_of_lt_right hfade
  have hfe : (calculateTiming config speechDuration).fadeStartTime <
      (calculateTiming config speechDuration).fadeEndTime := by
    rw [calculateTiming_fadeStartTime, calculateTiming_fadeEndTime]; linarith
  have hss : 0 < (calculateTiming config speechDuration).speechStartTime := by
    rw [calculateTiming_speechStartTime]
    have h2 : 0 < max 0 config.introDuration := lt_max_of_lt_right hintro
    linarith
  have hraw : 0 < (calculateTiming config speechDuration).speechEndTime -
      config.outroFadeInDuration := by linarith
  have hofis : (calculateTiming config speechDuration).outroFadeInStart =
      (calculateTiming config speechDuration).speechEndTime - config.outroFadeInDuration := by
    rw [calculateTiming_outroFadeInStart, if_neg (not_lt.mpr hraw.le)]
  have hrawlt : (calculateTiming config speechDuration).speechEndTime -
      config.outroFadeInDuration < (calculateTiming config speechDuration).speechEndTime := by
    linarith
  have hminq0 : 0 ≤ min 1 (config.musicVolume * (12/10)) :=
    le_min (by norm_num) (mul_nonneg hmv0 (by norm_num))
  have hminq1 : min 1 (config.musicVolume * (12/10)) ≤ 3/2 :=
    (min_le_left _ _).trans (by norm_num)
  intro env henv
  simp only [List.mem_cons, List.not_mem_nil, or_false] at henv
  rcases henv with rfl | rfl | rfl | rfl
  · refine ⟨?_, ?_, rfl⟩
    · rw [timesStrictlyIncreasing, musicIntroGainEnvelope]
      exact List.chain'_cons.mpr ⟨hfs, List.chain'_cons.mpr ⟨hfe, List.chain'_singleton _⟩⟩
    · simp only [valuesInRange, musicIntroGainEnvelope]
      intro p hp
      simp only [List.mem_cons, List.not_mem_nil, or_false] at hp
      rcases hp with rfl | rfl | rfl
      · exact ⟨hmv0, hmv1.trans (by norm_num)⟩
      · exact ⟨hmv0, hmv1.trans (by norm_num)⟩
      · exact ⟨le_refl 0, by norm_num⟩
  · refine ⟨?_, ?_, rfl⟩
    · rw [timesStrictlyIncreasing, speechGainEnvelope]
      refine List.chain'_cons.mpr ⟨hss, List.chain'_cons.mpr ⟨?_, List.chain'_singleton _⟩⟩
      exact lt_add_of_pos_right _ one_pos
    · simp only [valuesInRange, speechGainEnvelope]
      intro p hp
      simp only [List.mem_cons, List.not_mem_nil, or_false] at hp
      rcases hp with rfl | rfl | rfl
      · exact ⟨le_refl 0, by norm_num⟩
      · exact ⟨le_refl 0, by norm_num⟩
      · exact ⟨hsv0, hsv1.trans (by norm_num)⟩
  · refine ⟨?_, ?_, rfl⟩
    · rw [timesStrictlyIncreasing, musicOutroGainEnvelope]
      refine List.chain'_cons.mpr ⟨?_, List.chain'_cons.mpr ⟨?_,
        List.chain'_cons.mpr ⟨?_, List.chain'_cons.mpr ⟨?_, List.chain'_singleton _⟩⟩⟩⟩
      · show (0 : ℚ) < max 0 (calculateTiming config speechDuration).outroFadeInStart
        rw [hofis]
        exact lt_max_of_lt_right hraw
      · show max 0 (calculateTiming config speechDuration).outroFadeInStart <
          max (calculateTiming config speechDuration).outroFadeInStart
            (calculateTiming config speechDuration).outroFadeInEnd
        rw [hofis, calculateTiming_outroFadeInEnd, max_eq_right hraw.le,
          max_eq_right hrawlt.le]
        exact hrawlt
      · show max (calculateTiming config speechDuration).outroFadeInStart
            (calculateTiming config speechDuration).outroFadeInEnd <
          (calculateTiming config speechDuration).outroFullVolumeEnd
        rw [hofis, calculateTiming_outroFadeInEnd, max_eq_right hrawlt.le,
          calculateTiming_outroFullVolumeEnd]
        linarith
      · show (calculateTiming config speechDuration).outroFullVolumeEnd <
          (calculateTiming config speechDuration).outroFadeOutEnd
        rw [calculateTiming_outroFullVolumeEnd, calculateTiming_outroFadeOutEnd]
        linarith
    · simp only [valuesInRange, musicOutroGainEnvelope]
      intro p hp
      simp only [List.mem_cons, List.not_mem_nil, or_false] at hp
      rcases hp with rfl | rfl | rfl | rfl | rfl
      · exact ⟨le_refl 0, by norm_num⟩
      · exact ⟨le_refl 0, by norm_num⟩
      · exact ⟨hminq0, hminq1⟩
      · exact ⟨hminq0, hminq1⟩
      · exact ⟨le_refl 0, by norm_num⟩
  · refine ⟨?_, ?_, rfl⟩
    · rw [timesStrictlyIncreasing, breakGainEnvelope]
      refine List.chain'_cons.mpr ⟨?_, List.chain'_cons.mpr ⟨?_, List.chain'_singleton _⟩⟩
      · show (0 : ℚ) < max 0 (breakStartTime - 1/100)
        exact lt_max_of_lt_right (by linarith)
      · show max 0 (breakStartTime - 1/100) < breakStartTime + playDuration
        rw [max_eq_right (by linarith : (0 : ℚ) ≤ breakStartTime - 1/100)]
        linarith
    · simp only [valuesInRange, breakGainEnvelope]
      intro p hp
      simp only [List.mem_cons, List.not_mem_nil, or_false] at hp
      rcases hp with rfl | rfl | rfl
      · exact ⟨le_refl 0, by norm_num⟩
      · exact ⟨by norm_num, by norm_num⟩
      · exact ⟨by norm_num, by norm_num⟩

/-- Witness for the amended C6 statement at the example configuration, with a
break effect starting at 1 second playing for 1 second. -/
theorem C6_amended_envelope_validity_witness :
    (0 : ℚ) < exampleConfig.introDuration ∧
    (0 : ℚ) < exampleConfig.introFadeDuration ∧
    (0 : ℚ) ≤ exampleConfig.musicVolume ∧ exampleConfig.musicVolume ≤ 1 ∧
    (0 : ℚ) ≤ exampleConfig.speechVolume ∧ exampleConfig.speechVolume ≤ 1 ∧
    (0 : ℚ) < exampleConfig.outroFadeInDuration ∧
    exampleConfig.outroFadeInDuration < (calculateTiming exampleConfig 10).speechEndTime ∧
    (0 : ℚ) < exampleConfig.outroFadeOutDuration ∧
    exampleConfig.outroFadeOutDuration < exampleConfig.outroDuration ∧
    (1 : ℚ)/100 < 1 ∧ (0 : ℚ) ≤ 1 ∧
    (∀ env ∈ [musicIntroGainEnvelope exampleConfig (calculateTiming exampleConfig 10),
              speechGainEnvelope exampleConfig (calculateTiming exampleConfig 10),
              musicOutroGainEnvelope exampleConfig (calculateTiming exampleConfig 10),
              breakGainEnvelope 1 1],
        timesStrictlyIncreasing env ∧ valuesInRange env ∧ firstBreakpointAtZero env) :=
  ⟨by norm_num [exampleConfig], by norm_num [exampleConfig],
   by norm_num [exampleConfig], by norm_num [exampleConfig],
   by norm_num [exampleConfig], by norm_num [exampleConfig],
   by norm_num [exampleConfig],
   by norm_num [exampleConfig, calculateTiming_speechEndTime, max_def],
   by norm_num [exampleConfig], by norm_num [exampleConfig],
   by norm_num, by norm_num,
   C6_amended_envelope_validity exampleConfig 10 1 1
     (by norm_num [exampleConfig]) (by norm_num [exampleConfig])
     (by norm_num [exampleConfig]) (by norm_num [exampleConfig])
     (by norm_num [exampleConfig]) (by norm_num [exampleConfig])
     (by norm_num [exampleConfig])
     (by norm_num [exampleConfig, calculateTiming_speechEndTime, max_def])
     (by norm_num [exampleConfig]) (by norm_num [exampleConfig])
     (by norm_num) (by norm_num)⟩

theorem considerCandidate_used {e : ℚ} {used : List ℕ} {acc : Option (ℕ × ℚ)} {i : ℕ}
    {seg : SilenceSegment} (h : i ∈ used) :
    considerCandidate e used acc i seg = acc := by
  rw [considerCandidate.eq_def, if_pos h]

theorem considerCandidate_notLong {e : ℚ} {used : List ℕ} {acc : Option (ℕ × ℚ)} {i : ℕ}
    {seg : SilenceSegment} (h : i ∉ used) (h2 : ¬ longEnough seg e) :
    considerCandidate e used acc i seg = acc := by
  rw [considerCandidate.eq_def, if_neg h, if_neg h2]

theorem considerCandidate_first {e : ℚ} {used : List ℕ} {i : ℕ} {seg : SilenceSegment}
    (h : i ∉ used) (h2 : longEnough seg e) :
    considerCandidate e used none i seg = some (i, |seg.duration - e|) := by
  rw [considerCandidate.eq_def, if_neg h, if_pos h2]

theorem considerCandidate_better {e : ℚ} {used : List ℕ} {i bi : ℕ} {bs : ℚ}
    {seg : SilenceSegment} (h : i ∉ used) (h2 : longEnough seg e)
    (h3 : |seg.duration - e| < bs) :
    considerCandidate e used (some (bi, bs)) i seg = some (i, |seg.duration - e|) := by
  rw [considerCandidate.eq_def, if_neg h, if_pos h2]
  exact if_pos h3

theorem considerCandidate_keep {e : ℚ} {used : List ℕ} {i bi : ℕ} {bs : ℚ}
    {seg : SilenceSegment} (h : i ∉ used) (h2 : longEnough seg e)
    (h3 : ¬ |seg.duration - e| < bs) :
    considerCandidate e used (some (bi, bs)) i seg = some (bi, bs) := by
  rw [considerCandidate.eq_def, if_neg h, if_pos h2]
  exact if_neg h3

/-- One candidate-scan step preserves the four best-so-far invariants,
advancing the scanned prefix by one index. -/
theorem considerCandidate_invariant (L : List SilenceSegment) (used : List ℕ) (e : ℚ)
    (i0 : ℕ) (acc : Option (ℕ × ℚ)) (seg0 : SilenceSegment)
    (hseg0 : L[i0]? = some seg0)
    (hS : BestSound L used e acc) (hM : BestMinUpTo L used e i0 acc)
    (hT : BestFirstTie L used e acc) (hN : BestNoneUpTo L used e i0 acc) :
    BestSound L used e (considerCandidate e used acc i0 seg0) ∧
    BestMinUpTo L used e (i0 + 1) (considerCandidate e used acc i0 seg0) ∧
    BestFirstTie L used e (considerCandidate e used acc i0 seg0) ∧
    BestNoneUpTo L used e (i0 + 1) (considerCandidate e used acc i0 seg0) := by
  by_cases hu : i0 ∈ used
  · rw [considerCandidate_used hu]
    refine ⟨hS, ?_, hT, ?_⟩
    · intro j bs heq k segk hk hkseg hku hkl
      rcases Nat.lt_succ_iff_lt_or_eq.mp hk with hk' | rfl
      · exact hM j bs heq k segk hk' hkseg hku hkl
      · exact absurd hu hku
    · intro hacc k segk hk hkseg hku
      rcases Nat.lt_succ_iff_lt_or_eq.mp hk with hk' | rfl
      · exact hN hacc k segk hk' hkseg hku
      · exact absurd hu hku
  · by_cases hle : longEnough seg0 e
    · cases acc with
      | none =>
          rw [considerCandidate_first hu hle]
          refine ⟨?_, ?_, ?_, ?_⟩
          · intro j bs heq
            simp only [Option.some.injEq, Prod.mk.injEq] at heq
            obtain ⟨rfl, rfl⟩ := heq
            exact ⟨seg0, hseg0, hu, hle, rfl⟩
          · intro j bs heq k segk hk hkseg hku hkl
            simp only [Option.some.injEq, Prod.mk.injEq] at heq
            obtain ⟨rfl, rfl⟩ := heq
            rcases Nat.lt_succ_iff_lt_or_eq.mp hk with hk' | rfl
            · exact absurd hkl (hN rfl k segk hk' hkseg hku)
            · rw [hseg0] at hkseg
              injection hkseg with hkseg
              rw [hkseg]
          · intro j bs heq k segk hkj hkseg hku hkl
            simp only [Option.some.injEq, Prod.mk.injEq] at heq
            obtain ⟨rfl, rfl⟩ := heq
            exact absurd hkl (hN rfl k segk hkj hkseg hku)
          · intro hacc
            exact absurd hacc (by simp)
      | some pair =>
          obtain ⟨bi, bs0⟩ := pair
          have hSold := hS bi bs0 rfl
          by_cases hsc : |seg0.duration - e| < bs0
          · rw [considerCandidate_better hu hle hsc]
            refine ⟨?_, ?_, ?_, ?_⟩
            · intro j bs heq
              simp only [Option.some.injEq, Prod.mk.injEq] at heq
              obtain ⟨rfl, rfl⟩ := heq
              exact ⟨seg0, hseg0, hu, hle, rfl⟩
            · intro j bs heq k segk hk hkseg hku hkl
              simp only [Option.some.injEq, Prod.mk.injEq] at heq
              obtain ⟨rfl, rfl⟩ := heq
              rcases Nat.lt_succ_iff_lt_or_eq.mp hk with hk' | rfl
              · exact hsc.le.trans (hM bi bs0 rfl k segk hk' hkseg hku hkl)
              · rw [hseg0] at hkseg
                injection hkseg with hkseg
                rw [hkseg]
            · intro j bs heq k segk hkj hkseg hku hkl
              simp only [Option.some.injEq, Prod.mk.injEq] at heq
              obtain ⟨rfl, rfl⟩ := heq
              exact lt_of_lt_of_le hsc (hM bi bs0 rfl k segk hkj hkseg hku hkl)
            · intro hacc
              exact absurd hacc (by simp)
          · rw [considerCandidate_keep hu hle hsc]
            refine ⟨hS, ?_, hT, ?_⟩
            · intro j bs heq k segk hk hkseg hku hkl
              rcases Nat.lt_succ_iff_lt_or_eq.mp hk with hk' | rfl
              · exact hM j bs heq k segk hk' hkseg hku hkl
              · simp only [Option.some.injEq, Prod.mk.injEq] at heq
                obtain ⟨rfl, rfl⟩ := heq
                rw [hseg0] at hkseg
                injection hkseg with hkseg
                rw [← hkseg]
                exact le_of_not_lt hsc
            · intro hacc
              exact absurd hacc (by simp)
    · rw [considerCandidate_notLong hu hle]
      refine ⟨hS, ?_, hT, ?_⟩
      · intro j bs heq k segk hk hkseg hku hkl
        rcases Nat.lt_succ_iff_lt_or_eq.mp hk with hk' | rfl
        · exact hM j bs heq k segk hk' hkseg hku hkl
        · rw [hseg0] at hkseg
          injection hkseg with hkseg
          rw [← hkseg] at hkl
          exact absurd hkl hle
      · intro hacc k segk hk hkseg hku
        rcases Nat.lt_succ_iff_lt_or_eq.mp hk with hk' | rfl
        · exact hN hacc k segk hk' hkseg hku
        · rw [hseg0] at hkseg
          injection hkseg with hkseg
          rw [← hkseg]
          exact hle

/-- The candidate scan maintains the four best-so-far invariants through the
whole list: scanning the suffix from index i0 with a valid accumulator yields
a result that is sound, minimal over all indices, first-wins on ties, and
empty only when no eligible segment exists. -/
theorem findBestAux_invariant (e : ℚ) (used : List ℕ) (L : List SilenceSegment) :
    ∀ n i0 : ℕ, L.length ≤ i0 + n → ∀ acc : Option (ℕ × ℚ),
    BestSound L used e acc → BestMinUpTo L used e i0 acc → BestFirstTie L used e acc →
    BestNoneUpTo L used e i0 acc →
    BestSound L used e (findBestAux e used (L.drop i0) i0 acc) ∧
    BestMinUpTo L used e L.length (findBestAux e used (L.drop i0) i0 acc) ∧
    BestFirstTie L used e (findBestAux e used (L.drop i0) i0 acc) ∧
    BestNoneUpTo L used e L.length (findBestAux e used (L.drop i0) i0 acc) := by
  intro n
  induction n with
  | zero =>
      intro i0 hlen acc hS hM hT hN
      rw [List.drop_eq_nil_of_le (by omega), findBestAux]
      refine ⟨hS, ?_, hT, ?_⟩
      · intro j bs heq k segk hk hkseg hku hkl
        exact hM j bs heq k segk (by omega) hkseg hku hkl
      · intro hacc k segk hk hkseg hku
        exact hN hacc k segk (by omega) hkseg hku
  | succ m ih =>
      intro i0 hlen acc hS hM hT hN
      by_cases hi : L.length ≤ i0
      · exact ih i0 (by omega) acc hS hM hT hN
      · push_neg at hi
        have hseg0 : L[i0]? = some (L.get ⟨i0, hi⟩) := by
          rw [List.getElem?_eq_getElem hi]
          rfl
        have hdrop : L.drop i0 = L.get ⟨i0, hi⟩ :: L.drop (i0 + 1) := by
          rw [List.drop_eq_getElem_cons hi]
          rfl
        rw [hdrop, findBestAux]
        obtain ⟨hS', hM', hT', hN'⟩ :=
          considerCandidate_invariant L used e i0 acc (L.get ⟨i0, hi⟩) hseg0 hS hM hT hN
        exact ih (i0 + 1) (by omega) _ hS' hM' hT' hN'

/-- The four properties of the full candidate scan: the result of findBest is
a sound, globally minimal, first-wins choice among the unused long-enough
segments, and findBest returns none exactly when no segment qualifies. -/
theorem findBest_spec (L : List SilenceSegment) (used : List ℕ) (e : ℚ) :
    BestSound L used e (findBest L used e) ∧
    BestMinUpTo L used e L.length (findBest L used e) ∧
    BestFirstTie L used e (findBest L used e) ∧
    BestNoneUpTo L used e L.length (findBest L used e) := by
  have h := findBestAux_invariant e used L L.length 0 (by omega) none
    (fun j bs heq => by cases heq)
    (fun j bs heq => by cases heq)
    (fun j bs heq => by cases heq)
    (fun _ k segk hk => by omega)
  rw [List.drop_zero] at h
  exact h

/-- One scan step only ever appends a segment whose duration passed the 0.4
second minimum. -/
theorem silenceScanStep_min_duration (b : AudioBuffer) (win : ℕ) (st : SilenceScanState)
    (i : ℕ) (h : ∀ seg ∈ st.segments, (2 : ℚ)/5 ≤ seg.duration) :
    ∀ seg ∈ (silenceScanStep b win st i).segments, (2 : ℚ)/5 ≤ seg.duration := by
  simp only [silenceScanStep]
  split_ifs with h1 h2 h3 h4
  · exact h
  · exact h
  · intro seg hseg
    rcases List.mem_append.mp hseg with hold | hnew
    · exact h seg hold
    · obtain rfl := List.mem_singleton.mp hnew
      exact h4
  · exact h
  · exact h

/-- The whole scan only produces segments of duration at least 0.4 seconds. -/
theorem detectSilenceScan_min_duration (b : AudioBuffer) (step win : ℕ) :
    ∀ seg ∈ (detectSilenceScan b step win).segments, (2 : ℚ)/5 ≤ seg.duration := by
  rw [detectSilenceScan]
  generalize (List.range ((b.length + step - 1) / step)).map (· * step) = idxs
  have hgen : ∀ (l : List ℕ) (st : SilenceScanState),
      (∀ seg ∈ st.segments, (2 : ℚ)/5 ≤ seg.duration) →
      ∀ seg ∈ (l.foldl (silenceScanStep b win) st).segments, (2 : ℚ)/5 ≤ seg.duration := by
    intro l
    induction l with
    | nil => intro st h; exact h
    | cons i rest ih =>
        intro st h
        rw [List.foldl_cons]
        exact ih _ (silenceScanStep_min_duration b win st i h)
  exact hgen idxs ⟨false, 0, []⟩ (by intro seg hseg; cases hseg)

/-- The raw detector output only contains segments of duration at least 0.4
seconds. -/
theorem detectSilenceRaw_min_duration (b : AudioBuffer) :
    ∀ seg ∈ detectSilenceRaw b, (2 : ℚ)/5 ≤ seg.duration := by
  simp only [detectSilenceRaw]
  split_ifs with h1 h2
  · intro seg hseg
    rcases List.mem_append.mp hseg with hold | hnew
    · exact detectSilenceScan_min_duration b _ _ seg hold
    · obtain rfl := List.mem_singleton.mp hnew
      exact h2
  · exact detectSilenceScan_min_duration b _ _
  · exact detectSilenceScan_min_duration b _ _

/-- Merging close segments only extends durations, so the 0.4 second minimum
is preserved. -/
theorem mergeCloseSegments_min_duration (segments : List SilenceSegment)
    (h : ∀ seg ∈ segments, (2 : ℚ)/5 ≤ seg.duration) :
    ∀ seg ∈ mergeCloseSegments segments, (2 : ℚ)/5 ≤ seg.duration := by
  rw [mergeCloseSegments]
  have hgen : ∀ (l : List SilenceSegment) (acc : List SilenceSegment),
      (∀ seg ∈ acc, (2 : ℚ)/5 ≤ seg.duration) →
      (∀ seg ∈ l, (2 : ℚ)/5 ≤ seg.duration) →
      ∀ seg ∈ l.foldl
        (fun merged seg =>
          match merged.getLast? with
          | some last =>
              if seg.start ≤ last.start + last.duration + 3/20 then
                merged.dropLast ++
                  [⟨last.start,
                    max (last.start + last.duration) (seg.start + seg.duration) - last.start⟩]
              else merged ++ [seg]
          | none => [seg]) acc, (2 : ℚ)/5 ≤ seg.duration := by
    intro l
    induction l with
    | nil => intro acc hacc _; exact hacc
    | cons s rest ih =>
        intro acc hacc hl
        rw [List.foldl_cons]
        refine ih _ ?_ (fun seg hseg => hl seg (List.mem_cons_of_mem _ hseg))
        rcases hlast : acc.getLast? with _ | last
        · simp only [hlast]
          intro seg hseg
          obtain rfl := List.mem_singleton.mp hseg
          exact hl seg (List.mem_cons_self _ _)
        · simp only [hlast]
          split_ifs with hclose
          · intro seg hseg
            rcases List.mem_append.mp hseg with hdrop | hnew
            · exact hacc seg (List.mem_of_mem_dropLast hdrop)
            · obtain rfl := List.mem_singleton.mp hnew
              have hlastmem : last ∈ acc := List.mem_of_mem_getLast? hlast
              have hlastdur := hacc last hlastmem
              have hmax : last.start + last.duration ≤
                  max (last.start + last.duration) (s.start + s.duration) :=
                le_max_left _ _
              simp only
              linarith
          · intro seg hseg
            rcases List.mem_append.mp hseg with hold | hnew
            · exact hacc seg hold
            · obtain rfl := List.mem_singleton.mp hnew
              exact hl seg (List.mem_cons_self _ _)
  exact hgen segments [] (by intro seg hseg; cases hseg) h

/-- Every segment the silence detector returns lasts at least 0.4 seconds
(the minSilence minimum of line 760, preserved by sorting and merging). -/
theorem detectSilenceSegments_min_duration (b : AudioBuffer) :
    ∀ seg ∈ detectSilenceSegments b, (2 : ℚ)/5 ≤ seg.duration := by
  rw [detectSilenceSegments]
  refine mergeCloseSegments_min_duration _ ?_
  intro seg hseg
  rw [sortSegmentsByStart] at hseg
  exact detectSilenceRaw_min_duration b seg
    ((List.mergeSort_perm _ _).mem_iff.mp hseg)

/-- C5: over silence segments of duration at least 0.4 seconds (which is what
the detector produces, see detectSilenceSegments_min_duration), a segment
qualifies as an alignment candidate exactly when its duration is at least 70
percent of the expected break duration — the 0.3 second floor of line 673 is
subsumed by the 0.4 second detector minimum — and among unused qualifying
segments the scan picks the one minimizing the absolute difference between
segment duration and expected duration, the first candidate scanned winning
ties. -/
theorem C5_candidate_selection (silenceSegments : List SilenceSegment) (used : List ℕ)
    (expected : ℚ)
    (hdur : ∀ seg ∈ silenceSegments, (2 : ℚ)/5 ≤ seg.duration) :
    (∀ seg ∈ silenceSegments,
      (longEnough seg expected ↔ expected * (7/10) ≤ seg.duration)) ∧
    (∀ bestIndex bestScore,
      findBest silenceSegments used expected = some (bestIndex, bestScore) →
      ∃ seg, silenceSegments[bestIndex]? = some seg ∧ bestIndex ∉ used ∧
        longEnough seg expected ∧ bestScore = |seg.duration - expected| ∧
        (∀ k segk, silenceSegments[k]? = some segk → k ∉ used → longEnough segk expected →
          bestScore ≤ |segk.duration - expected|) ∧
        (∀ k segk, k < bestIndex → silenceSegments[k]? = some segk → k ∉ used →
          longEnough segk expected → bestScore < |segk.duration - expected|)) := by
  obtain ⟨hS, hM, hT, _⟩ := findBest_spec silenceSegments used expected
  constructor
  · intro seg hseg
    constructor
    · intro hl
      exact le_trans (le_max_right _ _) hl
    · intro h70
      exact max_le (le_trans (by norm_num) (hdur seg hseg)) h70
  · intro bestIndex bestScore heq
    obtain ⟨seg, hseg, hbu, hbl, hbsc⟩ := hS bestIndex bestScore heq
    refine ⟨seg, hseg, hbu, hbl, hbsc, ?_, ?_⟩
    · intro k segk hk hku hkl
      exact hM bestIndex bestScore heq k segk (List.getElem?_eq_some.mp hk).1 hk hku hkl
    · intro k segk hkj hk hku hkl
      exact hT bestIndex bestScore heq k segk hkj hk hku hkl

/-- Witness for C5 at two concrete segments and an expected break of half a
second: both segments qualify and the scan behaves as stated. -/
theorem C5_candidate_selection_witness :
    (∀ seg ∈ [(⟨1, 1/2⟩ : SilenceSegment), ⟨3, 2/5⟩], (2 : ℚ)/5 ≤ seg.duration) ∧
    ((∀ seg ∈ [(⟨1, 1/2⟩ : SilenceSegment), ⟨3, 2/5⟩],
        (longEnough seg (1/2) ↔ (1/2 : ℚ) * (7/10) ≤ seg.duration)) ∧
     (∀ bestIndex bestScore,
        findBest [(⟨1, 1/2⟩ : SilenceSegment), ⟨3, 2/5⟩] [] (1/2) =
          some (bestIndex, bestScore) →
        ∃ seg, [(⟨1, 1/2⟩ : SilenceSegment), ⟨3, 2/5⟩][bestIndex]? = some seg ∧
          bestIndex ∉ ([] : List ℕ) ∧ longEnough seg (1/2) ∧
          bestScore = |seg.duration - 1/2| ∧
          (∀ k segk, [(⟨1, 1/2⟩ : SilenceSegment), ⟨3, 2/5⟩][k]? = some segk →
            k ∉ ([] : List ℕ) → longEnough segk (1/2) →
            bestScore ≤ |segk.duration - 1/2|) ∧
          (∀ k segk, k < bestIndex →
            [(⟨1, 1/2⟩ : SilenceSegment), ⟨3, 2/5⟩][k]? = some segk →
            k ∉ ([] : List ℕ) → longEnough segk (1/2) →
            bestScore < |segk.duration - 1/2|))) :=
  ⟨by norm_num [List.forall_mem_cons],
   C5_candidate_selection [⟨1, 1/2⟩, ⟨3, 2/5⟩] [] (1/2)
     (by norm_num [List.forall_mem_cons])⟩

/-- The durations of the timings the matching loop appends form a sublist of
the expected break durations, in order, after the incoming timings. -/
theorem alignLoop_map_duration (silenceSegments : List SilenceSegment) :
    ∀ (expectedBreaks : List ℚ) (timings : List BreakTiming) (used : List ℕ),
    ∃ matched : List ℚ, matched.Sublist expectedBreaks ∧
      (alignLoop silenceSegments expectedBreaks timings used).1.map BreakTiming.duration =
        timings.map BreakTiming.duration ++ matched := by
  intro expectedBreaks
  induction expectedBreaks with
  | nil =>
      intro ts us
      exact ⟨[], List.nil_sublist _, by rw [alignLoop]; simp⟩
  | cons e rest ih =>
      intro ts us
      rw [alignLoop]
      cases hfb : findBest silenceSegments us e with
      | none =>
          obtain ⟨m, hm, he⟩ := ih ts us
          exact ⟨m, hm.cons e, he⟩
      | some pair =>
          obtain ⟨bi, sc⟩ := pair
          obtain ⟨m, hm, he⟩ :=
            ih (ts ++ [⟨(silenceSegments.getD bi default).start, e⟩]) (us ++ [bi])
          refine ⟨e :: m, hm.cons₂ e, ?_⟩
          dsimp only
          rw [he]
          simp

/-- Every timing the matching loop appends has the start time of one of the
silence segments as its position. -/
theorem alignLoop_positions (silenceSegments : List SilenceSegment) :
    ∀ (expectedBreaks : List ℚ) (timings : List BreakTiming) (used : List ℕ),
    ∀ t ∈ (alignLoop silenceSegments expectedBreaks timings used).1,
      t ∈ timings ∨ ∃ seg ∈ silenceSegments, t.position = seg.start := by
  intro expectedBreaks
  induction expectedBreaks with
  | nil =>
      intro ts us t ht
      rw [alignLoop] at ht
      exact Or.inl ht
  | cons e rest ih =>
      intro ts us t ht
      rw [alignLoop] at ht
      cases hfb : findBest silenceSegments us e with
      | none =>
          rw [hfb] at ht
          exact ih ts us t ht
      | some pair =>
          obtain ⟨bi, sc⟩ := pair
          rw [hfb] at ht
          rcases ih _ _ t ht with hold | hnew
          · rcases List.mem_append.mp hold with hts | hx
            · exact Or.inl hts
            · obtain rfl := List.mem_singleton.mp hx
              obtain ⟨hS, _, _, _⟩ := findBest_spec silenceSegments us e
              obtain ⟨seg, hseg, _, _, _⟩ := hS bi sc hfb
              obtain ⟨hlt, hget⟩ := List.getElem?_eq_some.mp hseg
              refine Or.inr ⟨seg, ?_, ?_⟩
              · rw [← hget]
                exact List.getElem_mem hlt
              · rw [List.getD_eq_getElem?_getD, hseg]
                rfl
          · exact Or.inr hnew

/-- The estimate loop yields exactly one timing per entry. -/
theorem estimateLoop_length (wordsPerSecond : ℚ) :
    ∀ (l : List (ℚ × ℕ)) (cumulativeTime : ℚ),
      (estimateLoop wordsPerSecond l cumulativeTime).length = l.length := by
  intro l
  induction l with
  | nil => intro cum; rfl
  | cons p rest ih =>
      intro cum
      obtain ⟨d, w⟩ := p
      rw [estimateLoop]
      simp [ih]

/-- The estimate yields exactly one timing per expected break when the word
counts cover the breaks. -/
theorem estimateTimings_length (expectedBreaks : List ℚ) (wordsBefore : List ℕ)
    (totalWords : ℕ) (speechBufferDuration : Option ℚ)
    (h : expectedBreaks.length ≤ wordsBefore.length) :
    (estimateTimings expectedBreaks wordsBefore totalWords speechBufferDuration).length =
      expectedBreaks.length := by
  simp only [estimateTimings.eq_def]
  rw [estimateLoop_length, List.length_zip]
  omega

/-- C4: whenever the greedy alignment matches at least one but not all of the
expected break markers, the parser discards every alignment result and
returns the word-rate estimate for every marker — one estimated timing per
expected break, never a mixture of aligned and estimated positions — and this
downgrade is an ordinary return value of the parser, not a failure (the
parser is a total function into timing lists and has no failure outcome). -/
theorem C4_alignment_all_or_nothing (silenceSegments : List SilenceSegment)
    (expectedBreaks : List ℚ) (wordsBefore : List ℕ) (totalWords : ℕ)
    (speechBufferDuration : ℚ)
    (h1 : 1 ≤ (alignBreakTimings silenceSegments expectedBreaks).1.length)
    (h2 : (alignBreakTimings silenceSegments expectedBreaks).1.length <
      expectedBreaks.length)
    (h3 : expectedBreaks.length ≤ wordsBefore.length) :
    alignOrEstimate silenceSegments expectedBreaks wordsBefore totalWords
        speechBufferDuration =
      estimateTimings expectedBreaks wordsBefore totalWords (some speechBufferDuration) ∧
    (alignOrEstimate silenceSegments expectedBreaks wordsBefore totalWords
        speechBufferDuration).length = expectedBreaks.length := by
  have heq : alignOrEstimate silenceSegments expectedBreaks wordsBefore totalWords
      speechBufferDuration =
      estimateTimings expectedBreaks wordsBefore totalWords (some speechBufferDuration) := by
    simp only [alignOrEstimate]
    split_ifs with hg hl
    · exact absurd hl (by omega)
    · rfl
    · rfl
  refine ⟨heq, ?_⟩
  rw [heq, estimateTimings_length _ _ _ _ h3]

/-- Witness for C4: one detected silence segment of 0.6 seconds, expected
breaks of 0.5 and 5 seconds; the first matches, the second does not, so the
parser returns the estimate for both. -/
theorem C4_alignment_all_or_nothing_witness :
    1 ≤ (alignBreakTimings [⟨1/2, 3/5⟩] [1/2, 5]).1.length ∧
    (alignBreakTimings [⟨1/2, 3/5⟩] [1/2, 5]).1.length < ([1/2, 5] : List ℚ).length ∧
    ([1/2, 5] : List ℚ).length ≤ ([1, 1] : List ℕ).length ∧
    (alignOrEstimate [⟨1/2, 3/5⟩] [1/2, 5] [1, 1] 2 3 =
      estimateTimings [1/2, 5] [1, 1] 2 (some 3) ∧
     (alignOrEstimate [⟨1/2, 3/5⟩] [1/2, 5] [1, 1] 2 3).length = ([1/2, 5] : List ℚ).length) :=
  ⟨by norm_num [alignBreakTimings, alignLoop, findBest, findBestAux, considerCandidate,
      longEnough, max_def],
   by norm_num [alignBreakTimings, alignLoop, findBest, findBestAux, considerCandidate,
      longEnough, max_def],
   by norm_num,
   C4_alignment_all_or_nothing [⟨1/2, 3/5⟩] [1/2, 5] [1, 1] 2 3
     (by norm_num [alignBreakTimings, alignLoop, findBest, findBestAux, considerCandidate,
        longEnough, max_def])
     (by norm_num [alignBreakTimings, alignLoop, findBest, findBestAux, considerCandidate,
        longEnough, max_def])
     (by norm_num)⟩

/-- C10: on the exact-alignment path — every expected break matched — the
parser returns the aligned timings sorted by position; each carries the
expected duration parsed from the markup tag (the map of durations over the
matching order is exactly the expected list, so no timing carries the
measured duration of its segment unless the two coincide), and each position
is the start time of one of the detected silence segments. -/
theorem C10_exact_alignment_keeps_expected_durations (silenceSegments : List SilenceSegment)
    (expectedBreaks : List ℚ) (wordsBefore : List ℕ) (totalWords : ℕ)
    (speechBufferDuration : ℚ)
    (hne1 : silenceSegments ≠ []) (hne2 : expectedBreaks ≠ [])
    (hfull : (alignBreakTimings silenceSegments expectedBreaks).1.length =
      expectedBreaks.length) :
    alignOrEstimate silenceSegments expectedBreaks wordsBefore totalWords
        speechBufferDuration =
      sortByPosition (alignBreakTimings silenceSegments expectedBreaks).1 ∧
    (alignBreakTimings silenceSegments expectedBreaks).1.map BreakTiming.duration =
      expectedBreaks ∧
    (∀ t ∈ alignOrEstimate silenceSegments expectedBreaks wordsBefore totalWords
        speechBufferDuration,
      t.duration ∈ expectedBreaks ∧ ∃ seg ∈ silenceSegments, t.position = seg.start) := by
  have heq : alignOrEstimate silenceSegments expectedBreaks wordsBefore totalWords
      speechBufferDuration =
      sortByPosition (alignBreakTimings silenceSegments expectedBreaks).1 := by
    simp only [alignOrEstimate]
    rw [if_pos ⟨hne1, hne2⟩, if_pos hfull]
  obtain ⟨m, hm, hmap⟩ := alignLoop_map_duration silenceSegments expectedBreaks [] []
  rw [List.map_nil, List.nil_append] at hmap
  have hmlen : m.length = expectedBreaks.length := by
    have := congrArg List.length hmap
    rw [List.length_map] at this
    rw [← this]
    exact hfull
  have hme : m = expectedBreaks := hm.eq_of_length hmlen
  rw [hme] at hmap
  refine ⟨heq, hmap, ?_⟩
  intro t ht
  rw [heq, sortByPosition] at ht
  have htmem : t ∈ (alignBreakTimings silenceSegments expectedBreaks).1 :=
    (List.mergeSort_perm _ _).mem_iff.mp ht
  constructor
  · rw [← hmap]
    exact List.mem_map_of_mem _ htmem
  · rcases alignLoop_positions silenceSegments expectedBreaks [] [] t htmem with hnil | hpos
    · cases hnil
    · exact hpos

/-- Witness for C10: one detected silence segment of 0.6 seconds starting at
0.5 seconds and a single expected break of 0.5 seconds: a full match. -/
theorem C10_exact_alignment_keeps_expected_durations_witness :
    ([(⟨1/2, 3/5⟩ : SilenceSegment)] ≠ []) ∧ (([1/2] : List ℚ) ≠ []) ∧
    (alignBreakTimings [⟨1/2, 3/5⟩] [1/2]).1.length = ([1/2] : List ℚ).length ∧
    (alignOrEstimate [⟨1/2, 3/5⟩] [1/2] [1] 2 3 =
      sortByPosition (alignBreakTimings [⟨1/2, 3/5⟩] [1/2]).1 ∧
     (alignBreakTimings [⟨1/2, 3/5⟩] [1/2]).1.map BreakTiming.duration = [1/2] ∧
     (∀ t ∈ alignOrEstimate [⟨1/2, 3/5⟩] [1/2] [1] 2 3,
       t.duration ∈ ([1/2] : List ℚ) ∧
       ∃ seg ∈ [(⟨1/2, 3/5⟩ : SilenceSegment)], t.position = seg.start)) :=
  ⟨by simp, by simp,
   by norm_num [alignBreakTimings, alignLoop, findBest, findBestAux, considerCandidate,
      longEnough, max_def],
   C10_exact_alignment_keeps_expected_durations [⟨1/2, 3/5⟩] [1/2] [1] 2 3
     (by simp) (by simp)
     (by norm_num [alignBreakTimings, alignLoop, findBest, findBestAux, considerCandidate,
        longEnough, max_def])⟩

/-- C7 (code bug): on the text with one word, a two-second break tag, and one
word, and no speech asset, the parser of the Index.tsx revision returns no
timings at all — its break pattern ends in the empty negative lookahead that
never matches, so it returns the empty list on every input — while the same
parser with the pattern of the AudioMixer.ts revision (no trailing lookahead)
returns the single marker at position 0.4 seconds with duration 2 seconds
stated by the specification. -/
theorem C7_break_estimate_example :
    parseBreakTimings helloBreakWorld none = [] ∧
    (∀ (text : List TextItem) (speechBuffer : Option AudioBuffer),
      parseBreakTimings text speechBuffer = []) ∧
    parseBreakTimingsEstimateOnly helloBreakWorld = [⟨2/5, 2⟩] := by
  have hgen : ∀ (text : List TextItem) (speechBuffer : Option AudioBuffer),
      parseBreakTimings text speechBuffer = [] := by
    intro text speechBuffer
    rw [parseBreakTimings]
    cases speechBuffer with
    | none => simp [breakMatches, parseBreakTimingsCore, estimateTimings, estimateLoop]
    | some buf =>
        simp [breakMatches, parseBreakTimingsCore, alignOrEstimate, estimateTimings,
          estimateLoop]
  refine ⟨hgen _ _, hgen, ?_⟩
  norm_num [parseBreakTimingsEstimateOnly, helloBreakWorld, normalizeBreakTags,
    breakMatchesNoLookahead, breakSeconds, wordsBeforeEachBreak, wordsBeforeEachBreakAux,
    estimateLoop]

end AudioMixer
